import Mathlib

/-!
Verification development for the Gaussian Mixture benchmark task
(`sbibm/tasks/gaussian_mixture/task.py`).

The task is embedded shallowly:

* tensors of shape `(n, d)` become `List Vec` with `Vec := List ℚ`
  (rational numbers stand in for the real-valued tensor entries);
* the probabilistic-programming library's sampling primitives are
  modelled by explicit random oracles: a categorical draw is performed by
  inverse-CDF lookup `categoricalSample` on a uniform draw `u ∈ [0,1)`,
  and a Normal draw is performed by the reparameterisation
  `loc + scale * z` on a standard-normal draw `z`;
* the unbounded `while` loop of `_sample_reference_posterior` is given a
  fuel parameter; `none` means the loop has not terminated within the
  given fuel, mirroring that the Python loop may run forever;
* the two `assert` statements, the `RuntimeError` raised by `torch.cat`
  on an empty list of tensors, and the `ZeroDivisionError` guard of the
  acceptance-rate computation become explicit error values.

Numeric constants from `__init__`: `mixture_locs_factor = [1.0, 1.0]`,
`mixture_scales = [1.0, 0.1]`, `mixture_weights = [0.5, 0.5]`; the prior
is `Uniform(-prior_bound, prior_bound)^dim`.  `torch`'s `Uniform.log_prob`
computes `log(1_{low ≤ x} · 1_{x < high}) - log(high - low)` without
validation (validation is disabled in `__init__`).  For `b > 0` it is
finite exactly on the half-open box `[-b, b)` per coordinate and `-inf`
outside, so the rejection test `isinf(prior.log_prob(sample).sum())`
fires exactly on candidates with a coordinate outside `[-b, b)`.  For
`b ≤ 0`, `log(high - low)` is `nan` (`-inf` at `b = 0`) while no
coordinate satisfies `-b ≤ x < b`, so the log-probability is `nan`;
`isinf(nan)` is false and the rejection test never fires, accepting
every candidate.

The duplicate test `sample in torch.cat(accepted)` is tensor
`__contains__`, i.e. `(sample == cat).any()`: after broadcasting
`(1, d)` against `(k, d)` it is true iff the candidate agrees with some
accepted row in at least one coordinate position.  `isDuplicate` embeds
exactly that.
-/

/-- A parameter / data vector (one tensor row). -/
abbrev Vec := List ℚ

/-- `simulator_params["mixture_locs_factor"] = torch.tensor([1.0, 1.0])`. -/
def mixture_locs_factor : List ℚ := [1, 1]

/-- `simulator_params["mixture_scales"] = torch.tensor([1.0, 0.1])`. -/
def mixture_scales : List ℚ := [1, 1/10]

/-- `simulator_params["mixture_weights"] = torch.tensor([0.5, 0.5])`. -/
def mixture_weights : List ℚ := [1/2, 1/2]

/-- Inverse-CDF categorical sampling: given a uniform draw `u` and a
weight list, walk the cumulative weights and return the first index whose
cumulative weight exceeds `u` (the last index as fallback).  This is the
model of `pyro.sample(_, pdist.Categorical(probs))`. -/
def categoricalSample (u : ℚ) : List ℚ → Nat
  | [] => 0
  | [_] => 0
  | w :: ws => if u < w then 0 else categoricalSample (u - w) ws + 1

/-- `get_prior`: the returned closure draws `num_samples` rows, each row
having `dim` coordinates `low + u * (high - low)` with `low = -b`,
`high = b` and `u = u_draw i j ∈ [0,1)` a fresh uniform draw (torch's
`Uniform.rsample`). -/
def prior (dim : Nat) (b : ℚ) (u_draw : Nat → Nat → ℚ) (num_samples : Nat) :
    List Vec :=
  (List.range num_samples).map fun i =>
    (List.range dim).map fun j => -b + u_draw i j * (b - -b)

/-- The argument of the simulator closure: either a single 1-D parameter
vector of shape `(d,)` or a 2-D batch of shape `(n, d)`. -/
inductive PTensor
  | vec (v : Vec)
  | mat (rows : List Vec)

/-- `torch.atleast_2d`: a 1-D vector becomes a batch of one row; a 2-D
batch is unchanged. -/
def atleast_2d : PTensor → List Vec
  | .vec v => [v]
  | .mat rows => rows

/-- One simulator output row: coordinate `j` of the row is
`locs_factor[idx] * parameters[i][j] + scales[idx] * z j`, the
reparameterised draw from
`Normal(loc = locs_factor[idx][:, None] * parameters, scale = scales[idx][:, None])`. -/
def sim_row (lf sc : ℚ) (zrow : Nat → ℚ) : Nat → Vec → Vec
  | _, [] => []
  | j, x :: xs => (lf * x + sc * zrow j) :: sim_row lf sc zrow (j + 1) xs

/-- The simulator body applied to each row `i` of the (already 2-D)
parameter batch: draw a per-row mixture index from
`Categorical(tile(mixture_weights, (n, 1)))`, then emit the row's Normal
draw. -/
def sim_rows (u_draw : Nat → ℚ) (z : Nat → Nat → ℚ) : Nat → List Vec → List Vec
  | _, [] => []
  | i, row :: rest =>
    let idx := categoricalSample (u_draw i) mixture_weights
    sim_row (mixture_locs_factor.getD idx 0) (mixture_scales.getD idx 0) (z i) 0 row
      :: sim_rows u_draw z (i + 1) rest

/-- `get_simulator`'s closure: `parameters = torch.atleast_2d(parameters)`,
then the per-row categorical index draw and the Normal draw. -/
def simulator (u_draw : Nat → ℚ) (z : Nat → Nat → ℚ) (parameters : PTensor) :
    List Vec :=
  sim_rows u_draw z 0 (atleast_2d parameters)

/-- The random draws consumed by `_sample_reference_posterior`: on loop
attempt `t` (1-based, the value of `counter` after its increment) the
categorical draw uses the uniform value `uIdx t` and the Normal draw uses
the standard-normal vector `z t`. -/
structure RefOracle where
  uIdx : Nat → ℚ
  z : Nat → Vec

/-- `torch.isinf(prior_dist.log_prob(sample).sum())`, the value bound to
`is_outside_prior`.  For `b > 0` the summed log-probability is `-inf`
iff some coordinate lies outside `[-b, b)`.  For `b ≤ 0` it is `nan`
(since `log(high - low)` is `nan`, or `-inf` at `b = 0`, while the
indicator is `0`), and `isinf(nan)` is false, so the test never
fires. -/
def prior_logprob_isinf (b : ℚ) (v : Vec) : Bool :=
  decide (0 < b) && !(v.all fun x => decide (-b ≤ x) && decide (x < b))

/-- Two rows agree in some coordinate position. -/
def sharesCoord (p q : Vec) : Prop :=
  ∃ j a, p.get? j = some a ∧ q.get? j = some a

/-- `sample in torch.cat(reference_posterior_samples)`, i.e.
`((sample == cat).any())` after broadcasting `(1, d)` against `(k, d)`:
true iff the candidate agrees with some accepted row in some coordinate
position.  (The guard `len(...) > 0` of the source is absorbed: `any`
over the empty list is `false`.) -/
def isDuplicate (acc : List Vec) (s : Vec) : Bool :=
  acc.any fun p => (p.zip s).any fun q => decide (q.1 = q.2)

/-- The `while len(reference_posterior_samples) < num_samples` loop of
`_sample_reference_posterior`, with fuel.  State: `acc` is
`reference_posterior_samples`, `counter` is `counter`.  Each iteration
increments the counter, draws `idx` from
`Categorical(mixture_weights)`, draws the candidate from
`Normal(loc = mixture_locs_factor[idx] * observation,
scale = mixture_scales[idx])` by reparameterisation, and appends the
candidate iff `not is_outside_prior and not is_duplicate`.  Returns the
final `(samples, counter)`, or `none` if the fuel runs out first. -/
def ref_loop (ns : Nat) (b : ℚ) (obs : Vec) (o : RefOracle) :
    Nat → List Vec → Nat → Option (List Vec × Nat)
  | fuel, acc, counter =>
    if acc.length < ns then
      match fuel with
      | 0 => none
      | fuel + 1 =>
        let counter' := counter + 1
        let idx := categoricalSample (o.uIdx counter') mixture_weights
        let sample := List.zipWith
          (fun x zz =>
            mixture_locs_factor.getD idx 0 * x + mixture_scales.getD idx 0 * zz)
          obs (o.z counter')
        let is_outside_prior := prior_logprob_isinf b sample
        let is_dup := isDuplicate acc sample
        if !is_outside_prior && !is_dup then
          ref_loop ns b obs o fuel (acc ++ [sample]) counter'
        else
          ref_loop ns b obs o fuel acc counter'
    else
      some (acc, counter)

deriving instance DecidableEq for Except

/-- The failure modes of `_sample_reference_posterior`: the two `assert`
statements, the `RuntimeError` of `torch.cat` on an empty list of
tensors, and the `ZeroDivisionError` of `num_samples / counter` when
`counter == 0`. -/
inductive RefError
  | assertionError
  | catRuntimeError
  | zeroDivisionError
deriving DecidableEq

/-- `_sample_reference_posterior`.  `get_observation` models the external
`self.get_observation` lookup.  Result: `none` when the rejection loop
does not terminate within the fuel; otherwise the raised error or the
pair (accepted samples, reported acceptance rate
`num_samples / counter`).  After the loop the source first evaluates
`torch.cat(reference_posterior_samples)` — a `RuntimeError` on the
empty list — and only then the acceptance-rate division. -/
def sample_reference_posterior (b : ℚ) (get_observation : Nat → Vec)
    (num_samples : Nat) (num_observation : Option Nat) (observation : Option Vec)
    (o : RefOracle) (fuel : Nat) : Option (Except RefError (List Vec × ℚ)) :=
  if num_observation.isNone && observation.isNone then
    some (.error .assertionError)
  else if num_observation.isSome && observation.isSome then
    some (.error .assertionError)
  else
    let obs : Vec :=
      match num_observation with
      | some n => get_observation n
      | none => observation.getD []
    match ref_loop num_samples b obs o fuel [] 0 with
    | none => none
    | some (samples, counter) =>
      if samples = [] then some (.error .catRuntimeError)
      else if counter = 0 then some (.error .zeroDivisionError)
      else some (.ok (samples, (num_samples : ℚ) / (counter : ℚ)))

/-- Spec-side description of step (i) of each rejection-loop iteration:
"sample a mixture index from the (unconditional) mixture-weight
categorical" — it does not depend on the observation. -/
def spec_mixture_index (o : RefOracle) (t : Nat) : Nat :=
  categoricalSample (o.uIdx t) mixture_weights

/-- Spec-side description of step (ii): "sample a candidate parameter
from `Normal(mean = locs_factor[idx] * observation, scale = scales[idx])`",
as a reparameterised draw. -/
def spec_posterior_candidate (obs : Vec) (o : RefOracle) (t : Nat) : Vec :=
  List.zipWith
    (fun x zz =>
      mixture_locs_factor.getD (spec_mixture_index o t) 0 * x
        + mixture_scales.getD (spec_mixture_index o t) 0 * zz)
    obs (o.z t)

/-- Fixed random draws used for concrete runs: the categorical draw is
always `0` (so the mixture index is `0`) and the standard-normal draws
are the constant vector `[0]`. -/
def unit_oracle : RefOracle := ⟨fun _ => 0, fun _ => [0]⟩

/-- Fixed random draws whose successive candidate vectors (for
observation `[0, 0]` and mixture index `0`) are `[0, 0]`, `[0, 1]`,
`[5, 5]`, `[0, 0]`, ... -/
def demo_oracle : RefOracle :=
  ⟨fun _ => 0, fun t => if t = 2 then [0, 1] else if t = 3 then [5, 5] else [0, 0]⟩

/-! ### Basic lemmas about the embedded operations -/

theorem sharesCoord_nil_left (q : Vec) : ¬ sharesCoord [] q := by
  rintro ⟨j, a, hp, -⟩
  simp [List.get?] at hp

theorem sharesCoord_cons (x y : ℚ) (p q : Vec) :
    sharesCoord (x :: p) (y :: q) ↔ x = y ∨ sharesCoord p q := by
  constructor
  · rintro ⟨j, a, hp, hq⟩
    cases j with
    | zero =>
      simp [List.get?] at hp hq
      exact Or.inl (hp.trans hq.symm)
    | succ j =>
      exact Or.inr ⟨j, a, hp, hq⟩
  · rintro (h | ⟨j, a, hp, hq⟩)
    · exact ⟨0, x, rfl, by simp [List.get?, h]⟩
    · exact ⟨j + 1, a, hp, hq⟩

theorem zip_any_shares (p q : Vec) :
    ((p.zip q).any fun r => decide (r.1 = r.2)) = true ↔ sharesCoord p q := by
  induction p generalizing q with
  | nil =>
    rw [List.zip_nil_left]
    constructor
    · intro h
      simp at h
    · intro h
      exact absurd h (sharesCoord_nil_left q)
  | cons x p ih =>
    cases q with
    | nil =>
      rw [List.zip_nil_right]
      constructor
      · intro h
        simp at h
      · rintro ⟨j, a, -, hq⟩
        simp [List.get?] at hq
    | cons y q =>
      rw [List.zip_cons_cons, sharesCoord_cons]
      simp only [List.any_cons, Bool.or_eq_true, decide_eq_true_eq, ih]

theorem isDuplicate_iff (acc : List Vec) (s : Vec) :
    isDuplicate acc s = true ↔ ∃ p ∈ acc, sharesCoord p s := by
  unfold isDuplicate
  rw [List.any_eq_true]
  constructor
  · rintro ⟨p, hp, hzip⟩
    exact ⟨p, hp, (zip_any_shares p s).mp hzip⟩
  · rintro ⟨p, hp, hsh⟩
    exact ⟨p, hp, (zip_any_shares p s).mpr hsh⟩

theorem sharesCoord_self (p : Vec) (h : 0 < p.length) : sharesCoord p p := by
  cases p with
  | nil => simp at h
  | cons x p => exact ⟨0, x, rfl, rfl⟩

theorem prior_logprob_isinf_eq_false_iff (b : ℚ) (v : Vec) :
    prior_logprob_isinf b v = false ↔ b ≤ 0 ∨ ∀ x ∈ v, -b ≤ x ∧ x < b := by
  unfold prior_logprob_isinf
  rcases le_or_lt b 0 with hb | hb
  · simp [decide_eq_false (not_lt.mpr hb), hb]
  · rw [decide_eq_true hb]
    simp [List.all_eq_true, not_le.mpr hb]

theorem prior_logprob_isinf_of_nonpos (b : ℚ) (v : Vec) (hb : b ≤ 0) :
    prior_logprob_isinf b v = false := by
  unfold prior_logprob_isinf
  rw [decide_eq_false (not_lt.mpr hb)]
  rfl

theorem prior_logprob_isinf_of_all (b : ℚ) (v : Vec)
    (h : ∀ x ∈ v, -b ≤ x ∧ x < b) : prior_logprob_isinf b v = false := by
  unfold prior_logprob_isinf
  have hall : (v.all fun x => decide (-b ≤ x) && decide (x < b)) = true := by
    rw [List.all_eq_true]
    intro x hx
    rw [Bool.and_eq_true]
    exact ⟨decide_eq_true (h x hx).1, decide_eq_true (h x hx).2⟩
  rw [hall]
  simp

/-! ### Unfolding the rejection loop -/

theorem accept_cond_eq {α : Type} (c1 c2 : Bool) (A B : α) :
    (if (!c1 && !c2) = true then A else B) =
      if c1 = false ∧ c2 = false then A else B := by
  cases c1 <;> cases c2 <;> simp

theorem ref_loop_exit (ns : Nat) (b : ℚ) (obs : Vec) (o : RefOracle)
    (fuel : Nat) (acc : List Vec) (counter : Nat) (h : ¬ acc.length < ns) :
    ref_loop ns b obs o fuel acc counter = some (acc, counter) := by
  unfold ref_loop
  rw [if_neg h]

theorem ref_loop_fuel_zero (ns : Nat) (b : ℚ) (obs : Vec) (o : RefOracle)
    (acc : List Vec) (counter : Nat) (h : acc.length < ns) :
    ref_loop ns b obs o 0 acc counter = none := by
  unfold ref_loop
  rw [if_pos h]

theorem ref_loop_succ (ns : Nat) (b : ℚ) (obs : Vec) (o : RefOracle)
    (fuel : Nat) (acc : List Vec) (counter : Nat) (h : acc.length < ns) :
    ref_loop ns b obs o (fuel + 1) acc counter =
      if prior_logprob_isinf b (spec_posterior_candidate obs o (counter + 1)) = false
          ∧ isDuplicate acc (spec_posterior_candidate obs o (counter + 1)) = false then
        ref_loop ns b obs o fuel
          (acc ++ [spec_posterior_candidate obs o (counter + 1)]) (counter + 1)
      else
        ref_loop ns b obs o fuel acc (counter + 1) := by
  conv_lhs => unfold ref_loop
  rw [if_pos h]
  simp only [spec_posterior_candidate, spec_mixture_index, accept_cond_eq]

/-! ### The rejection-loop invariant -/

/-- Invariant of the rejection loop: the accepted list never exceeds the
target count, never exceeds the attempt counter, contains only rows of
width `d` on which the prior-rejection test does not fire, and no two
accepted rows agree in any coordinate position. -/
def LoopInv (ns : Nat) (b : ℚ) (d : Nat) (acc : List Vec) (counter : Nat) : Prop :=
  acc.length ≤ ns ∧ acc.length ≤ counter ∧
    (∀ p ∈ acc, p.length = d ∧ prior_logprob_isinf b p = false) ∧
    acc.Pairwise fun p q => ¬ sharesCoord p q

theorem spec_posterior_candidate_length (obs : Vec) (o : RefOracle) (t : Nat)
    (d : Nat) (hobs : obs.length = d) (hz : (o.z t).length = d) :
    (spec_posterior_candidate obs o t).length = d := by
  simp [spec_posterior_candidate, List.length_zipWith, hobs, hz]

theorem ref_loop_invariant (ns : Nat) (b : ℚ) (obs : Vec) (o : RefOracle)
    (d : Nat) (hobs : obs.length = d) (hz : ∀ t, (o.z t).length = d) :
    ∀ fuel acc counter res k, LoopInv ns b d acc counter →
      ref_loop ns b obs o fuel acc counter = some (res, k) →
      LoopInv ns b d res k ∧ res.length = ns := by
  intro fuel
  induction fuel with
  | zero =>
    intro acc counter res k hinv h
    by_cases hl : acc.length < ns
    · rw [ref_loop_fuel_zero _ _ _ _ _ _ hl] at h
      exact absurd h (by simp)
    · rw [ref_loop_exit _ _ _ _ _ _ _ hl] at h
      simp only [Option.some.injEq, Prod.mk.injEq] at h
      obtain ⟨rfl, rfl⟩ := h
      exact ⟨hinv, by have := hinv.1; omega⟩
  | succ fuel ih =>
    intro acc counter res k hinv h
    by_cases hl : acc.length < ns
    · rw [ref_loop_succ _ _ _ _ _ _ _ hl] at h
      split_ifs at h with hcond
      · obtain ⟨hc1, hc2⟩ := hcond
        obtain ⟨hlen, hcnt, hall, hpw⟩ := hinv
        refine ih _ _ _ _ ⟨?_, ?_, ?_, ?_⟩ h
        · simp only [List.length_append, List.length_singleton]
          omega
        · simp only [List.length_append, List.length_singleton]
          omega
        · intro p hp
          rcases List.mem_append.mp hp with hp | hp
          · exact hall p hp
          · rw [List.mem_singleton] at hp
            subst hp
            exact ⟨spec_posterior_candidate_length obs o _ d hobs (hz _), hc1⟩
        · rw [List.pairwise_append]
          refine ⟨hpw, List.pairwise_singleton _ _, ?_⟩
          intro p hp s' hs'
          rw [List.mem_singleton] at hs'
          subst hs'
          intro hsh
          have hdup : isDuplicate acc (spec_posterior_candidate obs o (counter + 1)) = true :=
            (isDuplicate_iff _ _).mpr ⟨p, hp, hsh⟩
          rw [hc2] at hdup
          exact absurd hdup (by simp)
      · exact ih _ _ _ _
          ⟨hinv.1, le_trans hinv.2.1 (Nat.le_succ _), hinv.2.2.1, hinv.2.2.2⟩ h
    · rw [ref_loop_exit _ _ _ _ _ _ _ hl] at h
      simp only [Option.some.injEq, Prod.mk.injEq] at h
      obtain ⟨rfl, rfl⟩ := h
      exact ⟨hinv, by have := hinv.1; omega⟩

theorem loopInv_start (ns : Nat) (b : ℚ) (d : Nat) : LoopInv ns b d [] 0 :=
  ⟨by simp, by simp, by simp, List.Pairwise.nil⟩

/-- Unfolding `sample_reference_posterior` on the direct-observation path
when it returns successfully: the loop terminated at some attempt count
`k ≠ 0` with exactly the returned samples, and the reported rate is
`num_samples / k`. -/
theorem sample_ref_ok (b : ℚ) (g : Nat → Vec) (ns : Nat) (obs : Vec)
    (o : RefOracle) (fuel : Nat) (samples : List Vec) (rate : ℚ)
    (h : sample_reference_posterior b g ns none (some obs) o fuel
      = some (.ok (samples, rate))) :
    ∃ k : Nat, k ≠ 0 ∧ ref_loop ns b obs o fuel [] 0 = some (samples, k) ∧
      rate = (ns : ℚ) / (k : ℚ) := by
  unfold sample_reference_posterior at h
  simp only [Option.isNone_none, Option.isNone_some, Bool.and_false,
    Bool.false_and, Bool.and_true, Option.isSome_none, Option.isSome_some,
    Bool.true_and, Option.getD_some, if_false, Bool.false_eq_true] at h
  split at h
  · exact absurd h (by simp)
  · rename_i res k heq
    split_ifs at h with hemp hk
    · exact absurd h (by simp)
    · exact absurd h (by simp)
    · simp only [Option.some.injEq, Except.ok.injEq, Prod.mk.injEq] at h
      obtain ⟨rfl, rfl⟩ := h
      exact ⟨k, hk, heq, rfl⟩

theorem isDuplicate_eq_false_iff (acc : List Vec) (s : Vec) :
    isDuplicate acc s = false ↔ ∀ p ∈ acc, ¬ sharesCoord p s := by
  rw [← Bool.not_eq_true, isDuplicate_iff]
  push_neg
  rfl

/-- When the categorical draw is `0`, the mixture index is `0` and both
the location factor and the scale are `1`, so the candidate is
observation plus noise, coordinatewise. -/
theorem spec_candidate_idx0 (obs : Vec) (o : RefOracle) (t : Nat)
    (h : o.uIdx t = 0) :
    spec_posterior_candidate obs o t =
      List.zipWith (fun x zz => x + zz) obs (o.z t) := by
  have hidx : spec_mixture_index o t = 0 := by
    unfold spec_mixture_index mixture_weights
    rw [h]
    unfold categoricalSample
    rw [if_pos (by norm_num)]
  unfold spec_posterior_candidate
  rw [hidx]
  simp [mixture_locs_factor, mixture_scales]

/-- A concrete successful run: with bound `10`, target count `1`,
observation `[0]` and the all-zero draws, the loop accepts the first
candidate `[0]` and the call returns it with acceptance rate `1`. -/
theorem unit_run :
    sample_reference_posterior 10 (fun _ => []) 1 none (some [0]) unit_oracle 1
      = some (.ok ([[0]], 1)) := by
  have hc : spec_posterior_candidate [0] unit_oracle 1 = [0] := by
    rw [spec_candidate_idx0 _ _ _ rfl]
    norm_num [unit_oracle, List.zipWith]
  have hrun : ref_loop 1 10 [0] unit_oracle 1 [] 0 = some ([[0]], 1) := by
    rw [ref_loop_succ _ _ _ _ _ _ _ (by norm_num), hc]
    rw [if_pos ⟨prior_logprob_isinf_of_all _ _
      (by intro x hx; simp at hx; subst hx; norm_num), rfl⟩]
    rfl
  unfold sample_reference_posterior
  simp only [Option.isNone_none, Option.isNone_some, Bool.and_false,
    Bool.false_eq_true, if_false, Option.isSome_none, Bool.false_and,
    Option.getD_some]
  rw [hrun]
  norm_num

/-! ### Claim theorems -/

/-- C1: `_sample_reference_posterior` fails with its precondition
(assertion) failure exactly when both or neither of
`num_observation` / `observation` are supplied; when exactly one of the
two is supplied no assertion failure occurs (the call may still loop
forever, succeed, or raise the division-by-zero error, but never the
assertion). -/
theorem c1_mutually_exclusive_arguments (b : ℚ) (g : Nat → Vec) (ns : Nat)
    (num_observation : Option Nat) (observation : Option Vec)
    (o : RefOracle) (fuel : Nat) :
    sample_reference_posterior b g ns num_observation observation o fuel
        = some (.error .assertionError)
      ↔ (num_observation.isSome ↔ observation.isSome) := by
  cases num_observation with
  | none =>
    cases observation with
    | none => simp [sample_reference_posterior]
    | some v =>
      refine iff_of_false ?_ (by simp)
      intro h
      unfold sample_reference_posterior at h
      simp only [Option.isNone_none, Option.isNone_some, Bool.and_false,
        Option.isSome_none, Bool.false_and, Bool.false_eq_true, if_false,
        Option.getD_some] at h
      split at h
      · exact absurd h (by simp)
      · split_ifs at h <;> simp at h
  | some n =>
    cases observation with
    | none =>
      refine iff_of_false ?_ (by simp)
      intro h
      unfold sample_reference_posterior at h
      simp only [Option.isNone_some, Option.isNone_none, Bool.false_and,
        Option.isSome_some, Option.isSome_none, Bool.and_false,
        Bool.false_eq_true, if_false, Bool.true_and, Bool.and_true] at h
      split at h
      · exact absurd h (by simp)
      · split_ifs at h <;> simp at h
    | some v => simp [sample_reference_posterior]

/-- C2: whenever `_sample_reference_posterior` terminates successfully on
an observation of width `d`, it returns exactly `num_samples` accepted
rows, each of width `d` — never more and never fewer. -/
theorem c2_returns_exactly_num_samples (b : ℚ) (g : Nat → Vec) (ns d : Nat)
    (obs : Vec) (o : RefOracle) (fuel : Nat) (samples : List Vec) (rate : ℚ)
    (_hns : 1 ≤ ns) (hobs : obs.length = d) (hz : ∀ t, (o.z t).length = d)
    (h : sample_reference_posterior b g ns none (some obs) o fuel
      = some (.ok (samples, rate))) :
    samples.length = ns ∧ ∀ s ∈ samples, s.length = d := by
  obtain ⟨k, _, hloop, -⟩ := sample_ref_ok b g ns obs o fuel samples rate h
  obtain ⟨hinv, hlen⟩ := ref_loop_invariant ns b obs o d hobs hz fuel [] 0
    samples k (loopInv_start ns b d) hloop
  exact ⟨hlen, fun s hs => (hinv.2.2.1 s hs).1⟩

/-- C3 counterexample: at `prior_bound = -1` the prior-rejection test
never fires (`isinf(nan)` is false), so the loop accepts the candidate
`[0]` even though its coordinate `0` lies outside the claimed
hyper-rectangle `[-b, b] = [1, -1]` (which is empty) and its prior
log-probability is `nan`, not finite; the run returns it as a
reference-posterior sample, refuting the claim for arbitrary bounds. -/
theorem c3_counterexample :
    sample_reference_posterior (-1) (fun _ => []) 1 none (some [0]) unit_oracle 1
        = some (.ok ([[0]], 1))
    ∧ ∃ s ∈ [[(0 : ℚ)]], ∃ x ∈ s, ¬ (-(-1 : ℚ) ≤ x ∧ x ≤ -1) := by
  constructor
  · have hc : spec_posterior_candidate [0] unit_oracle 1 = [0] := by
      rw [spec_candidate_idx0 _ _ _ rfl]
      norm_num [unit_oracle, List.zipWith]
    have hrun : ref_loop 1 (-1) [0] unit_oracle 1 [] 0 = some ([[0]], 1) := by
      rw [ref_loop_succ _ _ _ _ _ _ _ (by norm_num), hc]
      rw [if_pos ⟨prior_logprob_isinf_of_nonpos _ _ (by norm_num), rfl⟩]
      rfl
    unfold sample_reference_posterior
    simp only [Option.isNone_none, Option.isNone_some, Bool.and_false,
      Bool.false_eq_true, if_false, Option.isSome_none, Bool.false_and,
      Option.getD_some]
    rw [hrun]
    norm_num
  · exact ⟨[0], List.mem_singleton.mpr rfl, 0, List.mem_singleton.mpr rfl,
      by norm_num⟩

/-- C3 (amended): for every positive `prior_bound b > 0`, every accepted
reference-posterior sample passes the prior-rejection test (finite prior
log-probability), hence every coordinate of every returned sample lies
inside `[-b, b]`, and a candidate with a coordinate outside the support
is never accepted; for `b ≤ 0` the torch rejection test computes
`isinf(nan) = False` and accepts everything. -/
theorem c3_amended_accepted_inside_prior (b : ℚ) (g : Nat → Vec) (ns d : Nat)
    (obs : Vec) (o : RefOracle) (fuel : Nat) (samples : List Vec) (rate : ℚ)
    (hb : 0 < b) (hobs : obs.length = d) (hz : ∀ t, (o.z t).length = d)
    (h : sample_reference_posterior b g ns none (some obs) o fuel
      = some (.ok (samples, rate))) :
    ∀ s ∈ samples, prior_logprob_isinf b s = false ∧ ∀ x ∈ s, -b ≤ x ∧ x ≤ b := by
  obtain ⟨k, _, hloop, -⟩ := sample_ref_ok b g ns obs o fuel samples rate h
  obtain ⟨hinv, -⟩ := ref_loop_invariant ns b obs o d hobs hz fuel [] 0
    samples k (loopInv_start ns b d) hloop
  intro s hs
  have hsup := (hinv.2.2.1 s hs).2
  refine ⟨hsup, fun x hx => ?_⟩
  rcases (prior_logprob_isinf_eq_false_iff b s).mp hsup with hb0 | hall
  · exact absurd hb0 (not_le.mpr hb)
  · exact ⟨(hall x hx).1, le_of_lt (hall x hx).2⟩

/-- C5: on successful termination the reported acceptance rate is exactly
`num_samples / attempts` where `attempts` is the loop's final counter; it
equals `accepted / attempts` (the returned list has `num_samples`
elements) and is at most `1`. -/
theorem c5_acceptance_rate_exact (b : ℚ) (g : Nat → Vec) (ns d : Nat)
    (obs : Vec) (o : RefOracle) (fuel : Nat) (samples : List Vec) (rate : ℚ)
    (hobs : obs.length = d) (hz : ∀ t, (o.z t).length = d)
    (h : sample_reference_posterior b g ns none (some obs) o fuel
      = some (.ok (samples, rate))) :
    ∃ attempts : Nat, ref_loop ns b obs o fuel [] 0 = some (samples, attempts) ∧
      rate = (ns : ℚ) / (attempts : ℚ) ∧
      rate = (samples.length : ℚ) / (attempts : ℚ) ∧ rate ≤ 1 := by
  obtain ⟨k, hk, hloop, hrate⟩ := sample_ref_ok b g ns obs o fuel samples rate h
  obtain ⟨hinv, hlen⟩ := ref_loop_invariant ns b obs o d hobs hz fuel [] 0
    samples k (loopInv_start ns b d) hloop
  have hkpos : (0 : ℚ) < (k : ℚ) := by
    exact_mod_cast Nat.pos_of_ne_zero hk
  have hcnt : ns ≤ k := hlen ▸ hinv.2.1
  refine ⟨k, hloop, hrate, ?_, ?_⟩
  · rw [hrate, hlen]
  · rw [hrate]
    exact div_le_one_of_le₀ (by exact_mod_cast hcnt) (le_of_lt hkpos)

/-- C9 counterexample: at `num_samples = 0` the program never reaches
the acceptance-rate division: `torch.cat` on the empty accepted list
raises a `RuntimeError` first (line 142 precedes line 143), so the
result at a concrete valid observation is the cat error and not the
claimed division-by-zero error. -/
theorem c9_counterexample :
    sample_reference_posterior 10 (fun _ => []) 0 none (some [0]) unit_oracle 1
        = some (.error .catRuntimeError)
    ∧ RefError.catRuntimeError ≠ RefError.zeroDivisionError := by
  constructor
  · unfold sample_reference_posterior
    simp only [Option.isNone_none, Option.isNone_some, Bool.and_false,
      Bool.false_eq_true, if_false, Option.isSome_none, Bool.false_and,
      Option.getD_some]
    rw [ref_loop_exit 0 10 [0] unit_oracle 1 [] 0 (by simp)]
    simp
  · simp

/-- C9 (amended): calling `_sample_reference_posterior` with
`num_samples = 0` and a valid (direct) observation never returns an
empty sample set: the loop body does not run, the counter stays `0`,
and the call fails with the `RuntimeError` raised by `torch.cat` on the
empty accepted list, before the acceptance-rate division is reached. -/
theorem c9_amended_cat_error (b : ℚ) (g : Nat → Vec)
    (obs : Vec) (o : RefOracle) (fuel : Nat) :
    sample_reference_posterior b g 0 none (some obs) o fuel
      = some (.error .catRuntimeError) := by
  unfold sample_reference_posterior
  simp only [Option.isNone_none, Option.isNone_some, Bool.and_false,
    Bool.false_eq_true, if_false, Option.isSome_none, Bool.false_and,
    Option.getD_some]
  rw [ref_loop_exit 0 b obs o fuel [] 0 (by simp)]
  simp

theorem sim_row_length (lf sc : ℚ) (zrow : Nat → ℚ) :
    ∀ (j : Nat) (v : Vec), (sim_row lf sc zrow j v).length = v.length := by
  intro j v
  induction v generalizing j with
  | nil => rfl
  | cons x xs ih => simp [sim_row, ih]

theorem sim_rows_shape (u : Nat → ℚ) (z : Nat → Nat → ℚ) :
    ∀ (i : Nat) (m : List Vec),
      List.Forall₂ (fun r s => s.length = r.length) m (sim_rows u z i m) := by
  intro i m
  induction m generalizing i with
  | nil => exact List.Forall₂.nil
  | cons row rest ih =>
    exact List.Forall₂.cons (sim_row_length _ _ _ 0 row) (ih (i + 1))

/-- C7: the simulator maps a parameter batch of shape `(n, d)` to an
output of the same batch size `n`, with every output row as wide as the
corresponding input row. -/
theorem c7_simulator_preserves_batch_shape (u : Nat → ℚ) (z : Nat → Nat → ℚ)
    (m : List Vec) :
    (simulator u z (.mat m)).length = m.length ∧
      List.Forall₂ (fun r s => s.length = r.length) m (simulator u z (.mat m)) := by
  have h := sim_rows_shape u z 0 m
  exact ⟨(List.Forall₂.length_eq h).symm, h⟩

/-- C10: a single 1-D parameter vector of shape `(d,)` is promoted by
`torch.atleast_2d` to a batch of size one, so the simulator output has
shape `(1, d)` — one more dimension than the input. -/
theorem c10_simulator_promotes_vector (u : Nat → ℚ) (z : Nat → Nat → ℚ)
    (v : Vec) :
    (simulator u z (.vec v)).length = 1 ∧
      ∀ s ∈ simulator u z (.vec v), s.length = v.length := by
  constructor
  · rfl
  · intro s hs
    have hrep : simulator u z (.vec v) =
        [sim_row
          (mixture_locs_factor.getD (categoricalSample (u 0) mixture_weights) 0)
          (mixture_scales.getD (categoricalSample (u 0) mixture_weights) 0)
          (z 0) 0 v] := rfl
    rw [hrep, List.mem_singleton] at hs
    subst hs
    exact sim_row_length _ _ _ 0 v

/-- C8: each rejection-loop iteration first draws the mixture index from
the categorical over the fixed `mixture_weights` (independently of the
observation), then draws the candidate from
`Normal(mixture_locs_factor[idx] * observation, mixture_scales[idx])`,
and accepts exactly when the candidate passes the prior-support and
duplicate tests. -/
theorem c8_iteration_draws (ns : Nat) (b : ℚ) (obs : Vec) (o : RefOracle)
    (fuel : Nat) (acc : List Vec) (counter : Nat) (h : acc.length < ns) :
    ref_loop ns b obs o (fuel + 1) acc counter =
      if prior_logprob_isinf b (spec_posterior_candidate obs o (counter + 1)) = false
          ∧ isDuplicate acc (spec_posterior_candidate obs o (counter + 1)) = false then
        ref_loop ns b obs o fuel
          (acc ++ [spec_posterior_candidate obs o (counter + 1)]) (counter + 1)
      else
        ref_loop ns b obs o fuel acc (counter + 1) :=
  ref_loop_succ ns b obs o fuel acc counter h

/-- C4 counterexample: with observation `[0, 0]` and bound `10`, the
candidate `[0, 1]` drawn at the second attempt is inside the prior
support and is not identical to the only accepted sample `[0, 0]`, yet
the duplicate test flags it (it agrees with `[0, 0]` in coordinate `0`),
so the run needs a third attempt and returns `[[0, 0], [5, 5]]` with
acceptance rate `2/3` — refuting that a candidate is rejected for the
duplicate reason only when identical to a previously accepted sample. -/
theorem c4_counterexample :
    sample_reference_posterior 10 (fun _ => []) 2 none (some [0, 0])
        demo_oracle 5
      = some (.ok ([[0, 0], [5, 5]], 2/3))
    ∧ ([0, 1] : Vec) ≠ [0, 0]
    ∧ prior_logprob_isinf 10 [0, 1] = false
    ∧ isDuplicate [[0, 0]] [0, 1] = true := by
  have hc1 : spec_posterior_candidate [0, 0] demo_oracle 1 = [0, 0] := by
    rw [spec_candidate_idx0 _ _ _ rfl]
    norm_num [demo_oracle, List.zipWith]
  have hc2 : spec_posterior_candidate [0, 0] demo_oracle 2 = [0, 1] := by
    rw [spec_candidate_idx0 _ _ _ rfl]
    norm_num [demo_oracle, List.zipWith]
  have hc3 : spec_posterior_candidate [0, 0] demo_oracle 3 = [5, 5] := by
    rw [spec_candidate_idx0 _ _ _ rfl]
    norm_num [demo_oracle, List.zipWith]
  have hdup2 : isDuplicate [[(0 : ℚ), 0]] [0, 1] = true :=
    (isDuplicate_iff _ _).mpr ⟨[0, 0], List.mem_singleton.mpr rfl, 0, 0, rfl, rfl⟩
  have hdup3 : isDuplicate [[(0 : ℚ), 0]] [5, 5] = false := by
    rw [isDuplicate_eq_false_iff]
    intro p hp
    rw [List.mem_singleton] at hp
    subst hp
    rintro ⟨j, a, h1, h2⟩
    cases j with
    | zero =>
      simp [List.get?] at h1 h2
      rw [← h1] at h2
      norm_num at h2
    | succ j =>
      cases j with
      | zero =>
        simp [List.get?] at h1 h2
        rw [← h1] at h2
        norm_num at h2
      | succ j =>
        simp [List.get?] at h1
  have hrun : ref_loop 2 10 [0, 0] demo_oracle 5 [] 0 = some ([[0, 0], [5, 5]], 3) := by
    rw [ref_loop_succ _ _ _ _ _ _ _ (by norm_num), hc1]
    rw [if_pos ⟨prior_logprob_isinf_of_all _ _
      (by intro x hx; simp at hx; subst hx; norm_num), rfl⟩]
    rw [show ([] : List Vec) ++ [[(0 : ℚ), 0]] = [[0, 0]] from rfl]
    rw [ref_loop_succ _ _ _ _ _ _ _ (by norm_num),
      show (1 : Nat) + 1 = 2 from rfl, hc2]
    rw [if_neg (by
      rintro ⟨-, hdup⟩
      rw [hdup2] at hdup
      exact absurd hdup (by simp))]
    rw [ref_loop_succ _ _ _ _ _ _ _ (by norm_num),
      show (2 : Nat) + 1 = 3 from rfl, hc3]
    rw [if_pos ⟨prior_logprob_isinf_of_all _ _
      (by intro x hx; simp at hx; subst hx; norm_num), hdup3⟩]
    rfl
  refine ⟨?_, by norm_num, ?_, hdup2⟩
  · unfold sample_reference_posterior
    simp only [Option.isNone_none, Option.isNone_some, Bool.and_false,
      Bool.false_eq_true, if_false, Option.isSome_none, Bool.false_and,
      Option.getD_some]
    rw [hrun]
    norm_num
    intro hemp
    exact absurd hemp (by simp)
  · refine prior_logprob_isinf_of_all _ _ ?_
    intro x hx
    simp at hx
    rcases hx with rfl | rfl <;> norm_num

/-- C4 (amended): a candidate is rejected for the duplicate reason
exactly when it agrees with some previously accepted sample in at least
one coordinate position; consequently, on a successful run (with
positive dimensionality) no two returned samples agree in any coordinate
position, and in particular the returned samples are pairwise
distinct. -/
theorem c4_amended_duplicate_test (b : ℚ) (g : Nat → Vec) (ns d : Nat)
    (obs : Vec) (o : RefOracle) (fuel : Nat) (samples : List Vec) (rate : ℚ)
    (acc : List Vec) (cand : Vec)
    (_hd : 1 ≤ d) (hobs : obs.length = d) (hz : ∀ t, (o.z t).length = d)
    (h : sample_reference_posterior b g ns none (some obs) o fuel
      = some (.ok (samples, rate))) :
    (isDuplicate acc cand = true ↔ ∃ p ∈ acc, sharesCoord p cand)
    ∧ (samples.Pairwise fun p q => ¬ sharesCoord p q)
    ∧ samples.Pairwise (· ≠ ·) := by
  obtain ⟨k, _, hloop, -⟩ := sample_ref_ok b g ns obs o fuel samples rate h
  obtain ⟨hinv, -⟩ := ref_loop_invariant ns b obs o d hobs hz fuel [] 0
    samples k (loopInv_start ns b d) hloop
  have hpw := hinv.2.2.2
  have hall := hinv.2.2.1
  refine ⟨isDuplicate_iff acc cand, hpw, ?_⟩
  refine hpw.imp_of_mem ?_
  intro p q hp _ hnsh hpq
  subst hpq
  exact hnsh (sharesCoord_self p (by have := (hall p hp).1; omega))

/-- C6 counterexample: the claim quantifies over every `prior_bound b`;
at `b = -1` (with a legitimate uniform draw `u = 1/2 ∈ [0, 1)`) the
single prior sample is `[0]`, and `0` does not lie in the
hyper-rectangle `[-b, b] = [1, -1]`, which is empty. -/
theorem c6_counterexample :
    (0 ≤ (1 : ℚ)/2 ∧ (1 : ℚ)/2 < 1)
    ∧ ¬ (∀ row ∈ prior 1 (-1) (fun _ _ => (1 : ℚ)/2) 1,
          ∀ x ∈ row, -(-1 : ℚ) ≤ x ∧ x ≤ -1) := by
  constructor
  · constructor <;> norm_num
  · intro hcl
    have hp : prior 1 (-1) (fun _ _ => (1 : ℚ)/2) 1 = [[0]] := by
      unfold prior
      simp only [show List.range 1 = [0] from rfl, List.map_cons, List.map_nil]
      norm_num
    have h0 := hcl [0] (by rw [hp]; exact List.mem_singleton.mpr rfl)
      0 (List.mem_singleton.mpr rfl)
    norm_num at h0

/-- C6 (amended): for every dimensionality `d ≥ 1`, every nonnegative
prior bound `b ≥ 0`, and every sample count `n ≥ 1`, each row produced
by the prior callable lies in the hyper-rectangle `[-b, b]^d`, provided
the underlying uniform draws lie in `[0, 1)`. -/
theorem c6_amended_prior_within_bounds (d : Nat) (b : ℚ) (u : Nat → Nat → ℚ)
    (n : Nat) (_hd : 1 ≤ d) (_hn : 1 ≤ n) (hb : 0 ≤ b)
    (hu : ∀ i j, 0 ≤ u i j ∧ u i j < 1) :
    ∀ row ∈ prior d b u n, ∀ x ∈ row, -b ≤ x ∧ x ≤ b := by
  intro row hrow x hx
  unfold prior at hrow
  simp only [List.mem_map, List.mem_range] at hrow
  obtain ⟨i, -, rfl⟩ := hrow
  simp only [List.mem_map, List.mem_range] at hx
  obtain ⟨j, -, rfl⟩ := hx
  obtain ⟨h0, h1⟩ := hu i j
  constructor
  · nlinarith [mul_nonneg h0 hb]
  · nlinarith [mul_nonneg (by linarith : (0 : ℚ) ≤ 1 - u i j) hb]

/-! ### Witnesses: the claim theorems applied at concrete inputs -/

/-- C2 witness: the hypotheses hold and the conclusion evaluates on the
concrete run of `unit_run`. -/
theorem c2_witness :
    1 ≤ 1 ∧ ([0] : Vec).length = 1 ∧ (∀ t, (unit_oracle.z t).length = 1)
    ∧ ([[(0 : ℚ)]].length = 1 ∧ ∀ s ∈ [[(0 : ℚ)]], s.length = 1) :=
  ⟨le_refl 1, rfl, fun _ => rfl,
    c2_returns_exactly_num_samples 10 (fun _ => []) 1 1 [0] unit_oracle 1
      [[0]] 1 (le_refl 1) rfl (fun _ => rfl) unit_run⟩

/-- C3 witness: the hypotheses hold and the amended conclusion evaluates
on the concrete run of `unit_run`. -/
theorem c3_amended_witness :
    (0 : ℚ) < 10 ∧ ([0] : Vec).length = 1 ∧ (∀ t, (unit_oracle.z t).length = 1)
    ∧ ∀ s ∈ [[(0 : ℚ)]], prior_logprob_isinf 10 s = false
        ∧ ∀ x ∈ s, -(10 : ℚ) ≤ x ∧ x ≤ 10 :=
  ⟨by norm_num, rfl, fun _ => rfl,
    c3_amended_accepted_inside_prior 10 (fun _ => []) 1 1 [0] unit_oracle 1
      [[0]] 1 (by norm_num) rfl (fun _ => rfl) unit_run⟩

/-- C4 witness: the hypotheses hold and the amended conclusion evaluates
on the concrete run of `unit_run`. -/
theorem c4_amended_witness :
    1 ≤ 1 ∧ ([0] : Vec).length = 1 ∧ (∀ t, (unit_oracle.z t).length = 1)
    ∧ ((isDuplicate [[(0 : ℚ), 0]] [0, 1] = true
          ↔ ∃ p ∈ [[(0 : ℚ), 0]], sharesCoord p [0, 1])
        ∧ ([[(0 : ℚ)]].Pairwise fun p q => ¬ sharesCoord p q)
        ∧ [[(0 : ℚ)]].Pairwise (· ≠ ·)) :=
  ⟨le_refl 1, rfl, fun _ => rfl,
    c4_amended_duplicate_test 10 (fun _ => []) 1 1 [0] unit_oracle 1
      [[0]] 1 [[0, 0]] [0, 1] (le_refl 1) rfl (fun _ => rfl) unit_run⟩

/-- C5 witness: the hypotheses hold and the conclusion evaluates on the
concrete run of `unit_run`. -/
theorem c5_witness :
    ([0] : Vec).length = 1 ∧ (∀ t, (unit_oracle.z t).length = 1)
    ∧ ∃ attempts : Nat,
        ref_loop 1 10 [0] unit_oracle 1 [] 0 = some ([[0]], attempts)
        ∧ (1 : ℚ) = ((1 : Nat) : ℚ) / (attempts : ℚ)
        ∧ (1 : ℚ) = ([[(0 : ℚ)]].length : ℚ) / (attempts : ℚ)
        ∧ (1 : ℚ) ≤ 1 :=
  ⟨rfl, fun _ => rfl,
    c5_acceptance_rate_exact 10 (fun _ => []) 1 1 [0] unit_oracle 1
      [[0]] 1 rfl (fun _ => rfl) unit_run⟩

/-- C6 witness: the hypotheses hold and the amended conclusion evaluates
at dimension `1`, bound `10`, uniform draw `1/2`. -/
theorem c6_amended_witness :
    1 ≤ 1 ∧ (0 : ℚ) ≤ 10 ∧ (0 ≤ (1 : ℚ)/2 ∧ (1 : ℚ)/2 < 1)
    ∧ ∀ row ∈ prior 1 10 (fun _ _ => (1 : ℚ)/2) 1,
        ∀ x ∈ row, -(10 : ℚ) ≤ x ∧ x ≤ 10 :=
  ⟨le_refl 1, by norm_num, ⟨by norm_num, by norm_num⟩,
    c6_amended_prior_within_bounds 1 10 (fun _ _ => (1 : ℚ)/2) 1 (le_refl 1)
      (le_refl 1) (by norm_num) (fun i j => ⟨by norm_num, by norm_num⟩)⟩

/-- C8 witness: one unfolding of the loop at a concrete state. -/
theorem c8_witness :
    ([] : List Vec).length < 1
    ∧ ref_loop 1 10 [0] unit_oracle (0 + 1) [] 0 =
        (if prior_logprob_isinf 10 (spec_posterior_candidate [0] unit_oracle (0 + 1)) = false
            ∧ isDuplicate [] (spec_posterior_candidate [0] unit_oracle (0 + 1)) = false then
          ref_loop 1 10 [0] unit_oracle 0
            ([] ++ [spec_posterior_candidate [0] unit_oracle (0 + 1)]) (0 + 1)
        else
          ref_loop 1 10 [0] unit_oracle 0 [] (0 + 1)) :=
  ⟨by norm_num, c8_iteration_draws 1 10 [0] unit_oracle 0 [] 0 (by norm_num)⟩
